import Mathlib

/-!
Concurrent traffic simulation: message queue and traffic light.

A shallow embedding of `src/TrafficLight.cpp`.

* `MessageQueue<T>`: the buffer `_queue` is a list whose head is the front of the
  `std::deque` and whose last element is its back.  `send` is `push_back`,
  `receive` waits for a non-empty buffer and then takes `back()` / `pop_back()`.
  A `receive` whose wait predicate is false has not returned: it yields no
  message and leaves the buffer as it is.
* `TrafficLight`: the fields `_currentPhase` and `_msgLight`, the constructor,
  `getCurrentPhase`, one pass through the loop of `waitForGreen`, and one pass
  through the loop of `cycleThroughPhases` with its two locals `start` and `rd_time`.
* Threads are modelled by interleaving: a schedule is a list of events, each
  being one pass of the toggle loop, one pass of the `waitForGreen` loop, or a
  call of `waitForGreen`.

Clock readings are integers counting ticks of `std::chrono::system_clock`; the
number of ticks in a millisecond is a parameter `tpm`.  The difference of two
readings is a 64-bit tick count and the milliseconds computed from it are
stored in an `int`; both conversions are modular.  Values drawn from the random
distribution are inputs of the step that draws them.
-/

namespace TrafficSim

set_option maxRecDepth 8000

/-- The two phases of the light (`enum TrafficLightPhase`). -/
inductive TrafficLightPhase where
  | red
  | green
  deriving DecidableEq, Repr

namespace MessageQueue

variable {T : Type}

/-- The method `MessageQueue<T>::send`: `_queue.push_back(std::move(msg))`. -/
def send (_queue : List T) (msg : T) : List T :=
  _queue ++ [msg]

/-- The method `MessageQueue<T>::receive`: once `!_queue.empty()` holds, take `_queue.back()`
and `pop_back()`.  On an empty buffer the wait has not ended: no message is
returned and the buffer is as before. -/
def receive (_queue : List T) : Option T × List T :=
  match _queue.getLast? with
  | none => (none, _queue)
  | some message => (some message, _queue.dropLast)

/-- Successive `send` calls, one for each value, in order. -/
def sendAll (_queue : List T) (msgs : List T) : List T :=
  msgs.foldl send _queue

/-- Up to `n` successive `receive` calls of one consumer with no sender running:
the messages returned, in order of return, and the buffer left.  A call that
finds the buffer empty never returns, so no later call is made. -/
def receiveMany : Nat → List T → List T × List T
  | 0, _queue => ([], _queue)
  | n + 1, _queue =>
    match receive _queue with
    | (none, rest) => ([], rest)
    | (some message, rest) => (message :: (receiveMany n rest).1, (receiveMany n rest).2)

end MessageQueue

open MessageQueue

/-- The fields of `TrafficLight` the source file reads and writes: the current
phase and the buffer of the message queue `_msgLight` points to. -/
structure TrafficLight where
  _currentPhase : TrafficLightPhase
  _msgLight : List TrafficLightPhase
  deriving DecidableEq, Repr

/-- Narrowing of a 64-bit count to `int`: the value modulo `2^32` in
`[-2^31, 2^31)`. -/
def toInt32 (x : Int) : Int :=
  (x + 2 ^ 31) % 2 ^ 32 - 2 ^ 31

/-- A value as the 64-bit signed tick count of a clock duration holds it: the
value modulo `2^64` in `[-2^63, 2^63)`. -/
def toInt64 (x : Int) : Int :=
  (x + 2 ^ 63) % 2 ^ 64 - 2 ^ 63

/-- The line `int elapsedTime = duration_cast<milliseconds>(now() - start).count()`:
the difference of the two readings as a 64-bit tick count, divided by the ticks
per millisecond, rounded toward zero, stored in an `int`. -/
def elapsedTime (tpm : Int) (start now : Int) : Int :=
  toInt32 ((toInt64 (now - start)).tdiv tpm)

/-- The locals of `cycleThroughPhases` that live across loop passes. -/
structure CycleLocals where
  start : Int
  rd_time : Int
  deriving DecidableEq, Repr

/-- The test `elapsedTime >= rd_time` of the toggle loop at clock reading `now`. -/
def thresholdReached (tpm : Int) (loc : CycleLocals) (now : Int) : Bool :=
  decide (loc.rd_time ≤ elapsedTime tpm loc.start now)

namespace TrafficLight

/-- The constructor `TrafficLight::TrafficLight()`. -/
def new : TrafficLight :=
  { _currentPhase := TrafficLightPhase.red, _msgLight := [] }

/-- The method `TrafficLight::getCurrentPhase`. -/
def getCurrentPhase (tl : TrafficLight) : TrafficLightPhase :=
  tl._currentPhase

/-- One pass through the body of the `while(true)` loop of
`TrafficLight::waitForGreen`: a `receive` on `_msgLight`, then the test for
green.  The boolean tells whether the function returns in this pass.  While
`receive` is blocked nothing changes. -/
def waitForGreenStep (tl : TrafficLight) : Bool × TrafficLight :=
  match receive tl._msgLight with
  | (none, _) => (false, tl)
  | (some light_s, rest) =>
    (decide (light_s = TrafficLightPhase.green), { tl with _msgLight := rest })

/-- The lines of `cycleThroughPhases` before its loop: the first clock reading
and the first draw. -/
def cycleThroughPhasesInit (now draw : Int) : CycleLocals :=
  { start := now, rd_time := draw }

/-- One pass through the body of the `while(true)` loop of
`TrafficLight::cycleThroughPhases`.  `now` is the clock reading used for
`elapsedTime`, `now2` the reading assigned to `start` inside the branch and
`draw` the value `dist(e)` returns there.  Moving from the enum `_currentPhase`
into `send` leaves the field as it is. -/
def cycleThroughPhasesStep (tpm : Int) (tl : TrafficLight) (loc : CycleLocals)
    (now now2 draw : Int) : TrafficLight × CycleLocals :=
  if thresholdReached tpm loc now then
    let phase :=
      if tl._currentPhase = TrafficLightPhase.red then TrafficLightPhase.green
      else TrafficLightPhase.red
    ({ _currentPhase := phase, _msgLight := send tl._msgLight phase },
     { start := now2, rd_time := draw })
  else
    (tl, loc)

end TrafficLight

open TrafficLight

/-- Where the thread that uses `waitForGreen` is: no call made yet, inside the
loop of a call, or back from the latest call. -/
inductive Waiter where
  | idle
  | waiting
  | returned
  deriving DecidableEq, Repr

/-- The light, the locals of its one toggle thread, and the caller of
`waitForGreen`. -/
structure System where
  light : TrafficLight
  loop : CycleLocals
  waiter : Waiter
  deriving DecidableEq, Repr

/-- One scheduling step: `poll` is a pass of the toggle loop with its two clock
readings and its draw, `recv` a pass of the `waitForGreen` loop, `call` a call
of `waitForGreen`.  A pass of the toggle loop that does not enter its branch
takes no second reading and makes no draw: its `now2` and `draw` are not used. -/
inductive Event where
  | poll (now now2 draw : Int)
  | recv
  | call
  deriving DecidableEq, Repr

/-- A light just constructed whose toggle thread, started by `simulate`, has
run the lines before its loop. -/
def System.fresh (now0 draw0 : Int) : System :=
  { light := TrafficLight.new, loop := cycleThroughPhasesInit now0 draw0, waiter := Waiter.idle }

/-- The effect of one event.  `waitForGreen` holds the light's mutex for the
whole call, so a call made while another one is in its loop waits for the mutex
and changes nothing; a `recv` with no call in progress changes nothing. -/
def step (tpm : Int) (s : System) : Event → System
  | Event.poll now now2 draw =>
    { s with
      light := (cycleThroughPhasesStep tpm s.light s.loop now now2 draw).1
      loop := (cycleThroughPhasesStep tpm s.light s.loop now now2 draw).2 }
  | Event.recv =>
    match s.waiter with
    | Waiter.waiting =>
      { s with
        light := (waitForGreenStep s.light).2
        waiter := if (waitForGreenStep s.light).1 then Waiter.returned else Waiter.waiting }
    | _ => s
  | Event.call =>
    match s.waiter with
    | Waiter.waiting => s
    | _ => { s with waiter := Waiter.waiting }

/-- The state after a schedule. -/
def run (tpm : Int) (s : System) (es : List Event) : System :=
  es.foldl (step tpm) s

/-- The values the toggle loop passes to `send` during a schedule, in order:
what each `poll` appends to the buffer. -/
def published (tpm : Int) : System → List Event → List TrafficLightPhase
  | _, [] => []
  | s, Event.poll now now2 draw :: es =>
    (step tpm s (Event.poll now now2 draw)).light._msgLight.drop s.light._msgLight.length
      ++ published tpm (step tpm s (Event.poll now now2 draw)) es
  | s, e :: es => published tpm (step tpm s e) es

/-- The values `receive` returns to `waitForGreen` during a schedule, in order. -/
def consumed (tpm : Int) : System → List Event → List TrafficLightPhase
  | _, [] => []
  | s, Event.recv :: es =>
    (match s.waiter with
      | Waiter.waiting => (receive s.light._msgLight).1.toList
      | _ => [])
      ++ consumed tpm (step tpm s Event.recv) es
  | s, e :: es => consumed tpm (step tpm s e) es

/-- Whether the event is a pass of the toggle loop that enters its branch. -/
def toggles (tpm : Int) (s : System) : Event → Bool
  | Event.poll now _ _ => thresholdReached tpm s.loop now
  | _ => false

/-- Whether the event is a pass of the toggle loop that switches the light from
red to green. -/
def togglesToGreen (tpm : Int) (s : System) (e : Event) : Bool :=
  toggles tpm s e && decide (s.light._currentPhase = TrafficLightPhase.red)

/-- The dwell times of a schedule, in ticks: for each pass of the toggle loop
that enters its branch, the clock reading of that pass minus the baseline
`start` it was compared with. -/
def dwellTimes (tpm : Int) : System → List Event → List Int
  | _, [] => []
  | s, Event.poll now now2 draw :: es =>
    (if toggles tpm s (Event.poll now now2 draw) then [now - s.loop.start] else [])
      ++ dwellTimes tpm (step tpm s (Event.poll now now2 draw)) es
  | s, e :: es => dwellTimes tpm (step tpm s e) es

/-- Every draw of the schedule lies in `[4000, 6000]` (for a pass that makes no
draw, the value standing in for it). -/
def DrawsInRange : List Event → Prop
  | [] => True
  | Event.poll _ _ draw :: es => (4000 ≤ draw ∧ draw ≤ 6000) ∧ DrawsInRange es
  | _ :: es => DrawsInRange es

/-- The clock readings of the schedule never go back, and each reading used for
`elapsedTime` is at most `gap` ticks after the previous such reading.  `lastRead`
is the latest reading so far and `lastPoll` the latest one used for
`elapsedTime` (at the start, the reading taken before the loop).  For a pass
that takes no second reading, `now2` is any instant between this reading and
the next. -/
def ClockSteady (gap : Int) : Int → Int → List Event → Prop
  | _, _, [] => True
  | lastRead, lastPoll, Event.poll now now2 _ :: es =>
    lastRead ≤ now ∧ now - lastPoll ≤ gap ∧ now ≤ now2 ∧ ClockSteady gap now2 now es
  | lastRead, lastPoll, _ :: es => ClockSteady gap lastRead lastPoll es

instance decidableDrawsInRange : (es : List Event) → Decidable (DrawsInRange es)
  | [] => isTrue trivial
  | Event.poll _ _ draw :: es =>
    @instDecidableAnd (4000 ≤ draw ∧ draw ≤ 6000) (DrawsInRange es) inferInstance
      (decidableDrawsInRange es)
  | Event.recv :: es => decidableDrawsInRange es
  | Event.call :: es => decidableDrawsInRange es

instance decidableClockSteady (gap : Int) :
    (lastRead lastPoll : Int) → (es : List Event) → Decidable (ClockSteady gap lastRead lastPoll es)
  | _, _, [] => isTrue trivial
  | lastRead, lastPoll, Event.poll now now2 _ :: es =>
    @instDecidableAnd (lastRead ≤ now) _ inferInstance
      (@instDecidableAnd (now - lastPoll ≤ gap) _ inferInstance
        (@instDecidableAnd (now ≤ now2) _ inferInstance (decidableClockSteady gap now2 now es)))
  | lastRead, lastPoll, Event.recv :: es => decidableClockSteady gap lastRead lastPoll es
  | lastRead, lastPoll, Event.call :: es => decidableClockSteady gap lastRead lastPoll es

/-- Somewhere in the schedule `post`, run from `s`, a pass of the toggle loop
switches the light from red to green at a point where the call of `waitForGreen`
is still inside its loop. -/
def GreenToggleBeforeReturn (tpm : Int) (s : System) (post : List Event) : Prop :=
  ∃ post1 e post2, post = post1 ++ e :: post2 ∧
    (run tpm s post1).waiter = Waiter.waiting ∧
    togglesToGreen tpm (run tpm s post1) e = true

/-! ## The message queue -/

namespace MessageQueue

variable {T : Type}

theorem nil_or_snoc (q : List T) : q = [] ∨ ∃ l b, q = l ++ [b] := by
  rcases List.eq_nil_or_concat q with h | ⟨l, b, h⟩
  · exact Or.inl h
  · exact Or.inr ⟨l, b, by rw [h, List.concat_eq_append]⟩

theorem receive_nil : receive ([] : List T) = (none, []) := rfl

theorem receive_snoc (q : List T) (v : T) : receive (q ++ [v]) = (some v, q) := by
  simp [receive]

theorem receive_some_iff (q : List T) (v : T) (rest : List T) :
    receive q = (some v, rest) ↔ q = rest ++ [v] := by
  constructor
  · intro h
    rcases nil_or_snoc q with rfl | ⟨l, b, rfl⟩
    · simp [receive] at h
    · rw [receive_snoc] at h
      simp only [Prod.mk.injEq, Option.some.injEq] at h
      rw [h.1, h.2]
  · rintro rfl
    exact receive_snoc rest v

theorem receive_none_iff (q : List T) : (receive q).1 = none ↔ q = [] := by
  rcases nil_or_snoc q with rfl | ⟨l, b, rfl⟩
  · simp [receive]
  · simp [receive_snoc]

theorem sendAll_eq_append (q msgs : List T) : sendAll q msgs = q ++ msgs := by
  induction msgs generalizing q with
  | nil => simp [sendAll]
  | cons m ms ih =>
    have h : sendAll q (m :: ms) = sendAll (send q m) ms := rfl
    rw [h, ih, send]
    simp

theorem receiveMany_append (q vs : List T) :
    receiveMany vs.length (q ++ vs) = (vs.reverse, q) := by
  induction vs using List.reverseRecOn with
  | nil => simp [receiveMany]
  | append_singleton l a ih =>
    rw [List.length_append, List.length_singleton, ← List.append_assoc]
    simp only [receiveMany, receive_snoc, ih, List.reverse_append, List.reverse_singleton,
      List.singleton_append]

theorem receiveMany_sublist (n : Nat) (q : List T) :
    ((receiveMany n q).1.reverse).Sublist q := by
  induction n generalizing q with
  | zero => simp [receiveMany]
  | succ n ih =>
    rcases nil_or_snoc q with rfl | ⟨l, b, rfl⟩
    · simp [receiveMany, receive]
    · simp only [receiveMany, receive_snoc, List.reverse_cons]
      exact List.Sublist.append (ih l) (List.Sublist.refl _)

end MessageQueue

/-- C1: on the code, two values sent into an empty buffer come back in the
opposite order: after `send(red)`, `send(green)` the two `receive` calls return
`green` and then `red`, not `red` and then `green`. -/
theorem receive_order_after_two_sends :
    receiveMany 2 (sendAll [] [TrafficLightPhase.red, TrafficLightPhase.green])
        = ([TrafficLightPhase.green, TrafficLightPhase.red], []) ∧
      (receiveMany 2 (sendAll [] [TrafficLightPhase.red, TrafficLightPhase.green])).1
        ≠ [TrafficLightPhase.red, TrafficLightPhase.green] := by
  decide

/-- C6: `receive` yields no value exactly on the empty buffer, which it leaves
as it is; when it yields `v` the buffer was non-empty, `v` was one of its
entries, the buffer is one entry shorter and the entries left are the others in
their order (the old buffer is the new one followed by `v`); and on a buffer
whose entries are pairwise distinct, successive `receive` calls never return
the same entry twice. -/
theorem receive_removes_one_entry {T : Type} (q : List T) :
    ((receive q).1 = none ↔ q = []) ∧
      (q = [] → receive q = (none, q)) ∧
      (∀ v rest, receive q = (some v, rest) →
        q ≠ [] ∧ v ∈ q ∧ rest.length + 1 = q.length ∧ q = rest ++ [v]) ∧
      (q.Nodup → ∀ n, (receiveMany n q).1.Nodup) := by
  refine ⟨receive_none_iff q, ?_, ?_, ?_⟩
  · rintro rfl
    rfl
  · intro v rest h
    have hq : q = rest ++ [v] := (receive_some_iff q v rest).1 h
    subst hq
    simp
  · intro hq n
    have h := (receiveMany_sublist n q).nodup hq
    exact List.nodup_reverse.1 h

/-- Instance of C6 on the buffer `[red, green]`. -/
theorem receive_removes_one_entry_witness :
    [TrafficLightPhase.red, TrafficLightPhase.green] ≠ [] ∧
      TrafficLightPhase.green ∈ [TrafficLightPhase.red, TrafficLightPhase.green] ∧
      [TrafficLightPhase.red].length + 1
        = [TrafficLightPhase.red, TrafficLightPhase.green].length ∧
      [TrafficLightPhase.red, TrafficLightPhase.green]
        = [TrafficLightPhase.red] ++ [TrafficLightPhase.green] :=
  (receive_removes_one_entry [TrafficLightPhase.red, TrafficLightPhase.green]).2.2.1
    TrafficLightPhase.green [TrafficLightPhase.red] (by decide)

/-- C10: for every buffer `q` and value `v`, `send v` followed by `receive`
returns `v` and leaves the buffer equal to `q`; and for every `vs` sent into an
empty buffer, `vs.length` calls of `receive` return the values in the reverse of
the order they were sent in and leave the buffer empty. -/
theorem receive_takes_latest_send {T : Type} :
    (∀ (q : List T) (v : T), receive (send q v) = (some v, q)) ∧
      ∀ vs : List T, receiveMany vs.length (sendAll [] vs) = (vs.reverse, []) := by
  refine ⟨fun q v => receive_snoc q v, fun vs => ?_⟩
  rw [sendAll_eq_append]
  exact receiveMany_append [] vs

/-! ## The toggle loop -/

theorem toInt32_of_fits (x : Int) (h0 : -2 ^ 31 ≤ x) (h1 : x < 2 ^ 31) : toInt32 x = x := by
  unfold toInt32
  omega

theorem toInt64_of_fits (x : Int) (h0 : -2 ^ 63 ≤ x) (h1 : x < 2 ^ 63) : toInt64 x = x := by
  unfold toInt64
  omega

/-- When the tick difference fits the 64-bit count and its whole milliseconds
fit the `int`, the computed elapsed time is the tick difference in whole
milliseconds. -/
theorem elapsedTime_of_fits (tpm start now : Int)
    (h1 : -2 ^ 63 ≤ now - start) (h2 : now - start < 2 ^ 63)
    (h3 : -2 ^ 31 ≤ (now - start).tdiv tpm) (h4 : (now - start).tdiv tpm < 2 ^ 31) :
    elapsedTime tpm start now = (now - start).tdiv tpm := by
  unfold elapsedTime
  rw [toInt64_of_fits _ h1 h2]
  exact toInt32_of_fits _ h3 h4

/-- When the clock has not gone back since the baseline and fewer than
`bound` milliseconds' worth of ticks have passed, with `bound` at most `2^31`
and its ticks at most `2^63`, the computed elapsed time is the exact quotient. -/
theorem elapsedTime_exact (tpm bound start now : Int) (htpm : 0 < tpm)
    (hb : bound ≤ 2 ^ 31) (hb2 : bound * tpm ≤ 2 ^ 63) (h0 : start ≤ now)
    (h1 : now - start < bound * tpm) :
    elapsedTime tpm start now = (now - start) / tpm := by
  have hx : 0 ≤ now - start := by omega
  have hq : (now - start).tdiv tpm = (now - start) / tpm :=
    Int.tdiv_eq_ediv hx (le_of_lt htpm)
  have hq0 : 0 ≤ (now - start) / tpm := Int.ediv_nonneg hx (le_of_lt htpm)
  have hq1 : (now - start) / tpm < bound := Int.ediv_lt_of_lt_mul htpm h1
  rw [← hq]
  apply elapsedTime_of_fits
  · omega
  · omega
  · rw [hq]; omega
  · rw [hq]; omega

/-- A computed elapsed time of at least `c > 0`, on a clock that has not gone
back since the baseline, means that at least `c` milliseconds of ticks have
passed, whatever the two conversions did. -/
theorem elapsedTime_lower (tpm c start now : Int) (htpm : 0 < tpm) (hc : 0 < c)
    (h0 : start ≤ now) (h : c ≤ elapsedTime tpm start now) :
    c * tpm ≤ now - start := by
  have hD : 0 ≤ now - start := by omega
  have h64a : -2 ^ 63 ≤ toInt64 (now - start) := by unfold toInt64; omega
  have h64b : toInt64 (now - start) ≤ now - start := by unfold toInt64; omega
  have h64c : toInt64 (now - start) < 0 → 2 ^ 63 ≤ now - start := by
    unfold toInt64; omega
  unfold elapsedTime at h
  generalize toInt64 (now - start) = D at h h64a h64b h64c
  rcases le_or_lt 0 D with hpos | hneg
  · have hq : D.tdiv tpm = D / tpm := Int.tdiv_eq_ediv hpos (le_of_lt htpm)
    have hq0 : 0 ≤ D / tpm := Int.ediv_nonneg hpos (le_of_lt htpm)
    rw [hq] at h
    have hle : c ≤ D / tpm := by
      unfold toInt32 at h
      omega
    have := (Int.le_ediv_iff_mul_le htpm).1 hle
    omega
  · have hn : 0 ≤ -D := by omega
    have hq : D.tdiv tpm = -((-D) / tpm) := by
      have h1 := Int.neg_tdiv (-D) tpm
      rw [neg_neg] at h1
      rw [h1, Int.tdiv_eq_ediv hn (le_of_lt htpm)]
    have hq0 : 0 ≤ (-D) / tpm := Int.ediv_nonneg hn (le_of_lt htpm)
    rw [hq] at h
    have hbig : 2 ^ 31 + 1 ≤ (-D) / tpm := by
      unfold toInt32 at h
      omega
    have hc31 : c ≤ 2 ^ 31 := by
      unfold toInt32 at h
      omega
    have h3 := (Int.le_ediv_iff_mul_le htpm).1 hbig
    have h4 : c * tpm ≤ 2 ^ 31 * tpm := mul_le_mul_of_nonneg_right hc31 (le_of_lt htpm)
    have h5 := h64c hneg
    have h6 : (2 ^ 31 + 1) * tpm = 2 ^ 31 * tpm + tpm := by ring
    omega

theorem cycle_fires (tpm : Int) (tl : TrafficLight) (loc : CycleLocals) (now now2 draw : Int)
    (h : thresholdReached tpm loc now = true) :
    cycleThroughPhasesStep tpm tl loc now now2 draw =
      ({ _currentPhase :=
            if tl._currentPhase = TrafficLightPhase.red then TrafficLightPhase.green
            else TrafficLightPhase.red,
         _msgLight := tl._msgLight ++
            [if tl._currentPhase = TrafficLightPhase.red then TrafficLightPhase.green
             else TrafficLightPhase.red] },
       { start := now2, rd_time := draw }) := by
  simp [cycleThroughPhasesStep, h, send]

theorem cycle_idle (tpm : Int) (tl : TrafficLight) (loc : CycleLocals) (now now2 draw : Int)
    (h : thresholdReached tpm loc now = false) :
    cycleThroughPhasesStep tpm tl loc now now2 draw = (tl, loc) := by
  simp [cycleThroughPhasesStep, h]

theorem flip_ne (p : TrafficLightPhase) :
    (if p = TrafficLightPhase.red then TrafficLightPhase.green else TrafficLightPhase.red) ≠ p := by
  cases p <;> decide

theorem run_cons (tpm : Int) (s : System) (e : Event) (es : List Event) :
    run tpm s (e :: es) = run tpm (step tpm s e) es := rfl

theorem step_recv_phase (tpm : Int) (s : System) :
    (step tpm s Event.recv).light._currentPhase = s.light._currentPhase := by
  cases hw : s.waiter <;> simp only [step, hw]
  simp only [waitForGreenStep]
  split <;> rfl

theorem step_call_light (tpm : Int) (s : System) :
    (step tpm s Event.call).light = s.light := by
  cases hw : s.waiter <;> simp only [step, hw]

/-- The values published by a schedule, with the phase the light had at its
start put in front, never repeat a value twice in a row. -/
theorem chain_phase_published (tpm : Int) (s : System) (es : List Event) :
    List.Chain' (fun a b => a ≠ b) (s.light._currentPhase :: published tpm s es) := by
  induction es generalizing s with
  | nil => simp [published]
  | cons e es ih =>
    cases e with
    | poll now now2 draw =>
      have ih1 := ih (step tpm s (Event.poll now now2 draw))
      cases h : thresholdReached tpm s.loop now with
      | true =>
        simp only [published, step, cycle_fires tpm s.light s.loop now now2 draw h,
          List.drop_left, List.singleton_append] at ih1 ⊢
        exact List.Chain'.cons (Ne.symm (flip_ne _)) ih1
      | false =>
        simp only [published, step, cycle_idle tpm s.light s.loop now now2 draw h,
          List.drop_length, List.nil_append] at ih1 ⊢
        exact ih1
    | recv =>
      have ih1 := ih (step tpm s Event.recv)
      rw [step_recv_phase] at ih1
      simpa only [published] using ih1
    | call =>
      have ih1 := ih (step tpm s Event.call)
      rw [step_call_light] at ih1
      simpa only [published] using ih1

/-- C4: for every starting state of the light and its toggle loop and every
schedule (any clock readings and draws, any interleaving with the consumer),
the sequence of values the toggle loop sends contains no two consecutive equal
values. -/
theorem published_alternates (tpm : Int) (s : System) (es : List Event) :
    List.Chain' (fun a b => a ≠ b) (published tpm s es) :=
  (chain_phase_published tpm s es).tail

/-- C5 as stated fails in both directions on a nanosecond clock with baseline 0.
With threshold 4000 and a reading `2^31` ms after the baseline, the elapsed time
is above the threshold, but the milliseconds stored in the `int` are `-2^31` and
the pass changes nothing.  With threshold 4500 and a reading 4294962796.9 ms
before the baseline (the clock was set back), the elapsed time is below the
threshold, but the `int` holds 4500 and the pass toggles and sends green. -/
theorem toggle_test_differs_from_elapsed_time :
    (2147483648000000 - 0 : Int).tdiv 1000000 = 2147483648 ∧
    (4000 : Int) ≤ 2147483648 ∧
    cycleThroughPhasesStep 1000000 TrafficLight.new { start := 0, rd_time := 4000 }
        2147483648000000 2147483648000001 5000
      = (TrafficLight.new, { start := 0, rd_time := 4000 }) ∧
    (-4294962796900000 - 0 : Int).tdiv 1000000 = -4294962796 ∧
    (-4294962796 : Int) < 4500 ∧
    cycleThroughPhasesStep 1000000 TrafficLight.new { start := 0, rd_time := 4500 }
        (-4294962796900000) (-4294962796899999) 5000
      = ({ _currentPhase := TrafficLightPhase.green, _msgLight := [TrafficLightPhase.green] },
         { start := -4294962796899999, rd_time := 5000 }) := by
  decide

/-- C5, amended: one pass of the toggle loop, with the elapsed time taken as the
loop computes it (the tick difference from the baseline as a 64-bit count, in
whole milliseconds toward zero, stored in an `int`).  If that elapsed time has
reached the threshold, the phase becomes the other phase, the buffer is the
result of one `send` on the old buffer (one entry longer), the value sent is the
new phase as `getCurrentPhase` returns it, the baseline is the new clock reading
and the threshold the new draw; if it is below the threshold, the phase, the
buffer, the baseline and the threshold are unchanged.  The elapsed time so
computed is the tick difference in whole milliseconds whenever the difference
lies in `[-2^63, 2^63)` and its whole milliseconds in `[-2^31, 2^31)`. -/
theorem cycleThroughPhasesStep_spec (tpm : Int) (tl : TrafficLight) (loc : CycleLocals)
    (now now2 draw : Int) :
    (loc.rd_time ≤ elapsedTime tpm loc.start now →
        (cycleThroughPhasesStep tpm tl loc now now2 draw).1._currentPhase ≠ tl._currentPhase ∧
        (tl._currentPhase = TrafficLightPhase.red →
          (cycleThroughPhasesStep tpm tl loc now now2 draw).1._currentPhase
            = TrafficLightPhase.green) ∧
        (tl._currentPhase = TrafficLightPhase.green →
          (cycleThroughPhasesStep tpm tl loc now now2 draw).1._currentPhase
            = TrafficLightPhase.red) ∧
        (cycleThroughPhasesStep tpm tl loc now now2 draw).1._msgLight
          = send tl._msgLight
              (getCurrentPhase (cycleThroughPhasesStep tpm tl loc now now2 draw).1) ∧
        (cycleThroughPhasesStep tpm tl loc now now2 draw).1._msgLight.length
          = tl._msgLight.length + 1 ∧
        (cycleThroughPhasesStep tpm tl loc now now2 draw).2.start = now2 ∧
        (cycleThroughPhasesStep tpm tl loc now now2 draw).2.rd_time = draw) ∧
      (elapsedTime tpm loc.start now < loc.rd_time →
        cycleThroughPhasesStep tpm tl loc now now2 draw = (tl, loc)) ∧
      (-2 ^ 63 ≤ now - loc.start → now - loc.start < 2 ^ 63 →
        -2 ^ 31 ≤ (now - loc.start).tdiv tpm → (now - loc.start).tdiv tpm < 2 ^ 31 →
        elapsedTime tpm loc.start now = (now - loc.start).tdiv tpm) := by
  refine ⟨?_, ?_, fun h1 h2 h3 h4 => elapsedTime_of_fits tpm loc.start now h1 h2 h3 h4⟩
  · intro h
    have hr : thresholdReached tpm loc now = true := by simpa [thresholdReached] using h
    rw [cycle_fires tpm tl loc now now2 draw hr]
    refine ⟨flip_ne _, ?_, ?_, rfl, by simp, rfl, rfl⟩
    · intro hp
      simp [hp]
    · intro hp
      simp [hp]
  · intro h
    have hr : thresholdReached tpm loc now = false := by
      simpa [thresholdReached] using h
    exact cycle_idle tpm tl loc now now2 draw hr

/-- C8: a light just constructed has current phase red, `getCurrentPhase`
returns red and its buffer is empty; whatever the schedule, the values its
toggle loop publishes are none at all or begin with green; and a first pass
that finds the threshold reached does publish green. -/
theorem fresh_light_red_then_green :
    TrafficLight.new._currentPhase = TrafficLightPhase.red ∧
      getCurrentPhase TrafficLight.new = TrafficLightPhase.red ∧
      TrafficLight.new._msgLight = [] ∧
      (∀ (tpm now0 draw0 : Int) (es : List Event),
        (published tpm (System.fresh now0 draw0) es).head? = none ∨
        (published tpm (System.fresh now0 draw0) es).head? = some TrafficLightPhase.green) ∧
      published 1000000 (System.fresh 0 4000) [Event.poll 4000000000 4000000001 5000]
        = [TrafficLightPhase.green] := by
  refine ⟨rfl, rfl, rfl, fun tpm now0 draw0 es => ?_, by decide⟩
  have h := chain_phase_published tpm (System.fresh now0 draw0) es
  cases hp : published tpm (System.fresh now0 draw0) es with
  | nil => exact Or.inl rfl
  | cons v vs =>
    right
    rw [hp] at h
    have hne : (System.fresh now0 draw0).light._currentPhase ≠ v := (List.chain'_cons.1 h).1
    have hv : v = TrafficLightPhase.green := by
      cases v with
      | red => exact absurd rfl hne
      | green => rfl
    simp [hv]

/-! ## `waitForGreen` -/

theorem waitForGreenStep_nil (tl : TrafficLight) (h : tl._msgLight = []) :
    waitForGreenStep tl = (false, tl) := by
  simp [waitForGreenStep, h, receive]

theorem waitForGreenStep_snoc (tl : TrafficLight) (l : List TrafficLightPhase)
    (b : TrafficLightPhase) (h : tl._msgLight = l ++ [b]) :
    waitForGreenStep tl
      = (decide (b = TrafficLightPhase.green), { tl with _msgLight := l }) := by
  simp [waitForGreenStep, h, receive_snoc]

theorem step_recv_idle (tpm : Int) (s : System) (h : s.waiter ≠ Waiter.waiting) :
    step tpm s Event.recv = s := by
  cases hw : s.waiter <;> simp only [step, hw]
  exact absurd hw h

/-- With no call in progress and no new call in the schedule, nothing is
consumed and the caller stays where it is. -/
theorem consumed_not_waiting (tpm : Int) (s : System) (es : List Event)
    (hw : s.waiter ≠ Waiter.waiting) (hcall : Event.call ∉ es) :
    consumed tpm s es = [] ∧ (run tpm s es).waiter = s.waiter := by
  induction es generalizing s with
  | nil => exact ⟨rfl, rfl⟩
  | cons e es ih =>
    have hes : Event.call ∉ es := fun h => hcall (List.mem_cons_of_mem _ h)
    cases e with
    | poll now now2 draw =>
      have ih1 := ih (step tpm s (Event.poll now now2 draw)) hw hes
      exact ⟨by simpa only [consumed] using ih1.1, by rw [run_cons, ih1.2]; rfl⟩
    | recv =>
      have hs : step tpm s Event.recv = s := step_recv_idle tpm s hw
      have ih1 := ih s hw hes
      refine ⟨?_, by rw [run_cons, hs]; exact ih1.2⟩
      simp only [consumed, hs, ih1.1, List.append_nil]
    | call => exact absurd (List.mem_cons_self _ _) hcall

/-- During one call of `waitForGreen` the values consumed are reds, followed by
one green exactly when the call has returned. -/
theorem consumed_waiting (tpm : Int) (s : System) (es : List Event)
    (hw : s.waiter = Waiter.waiting) (hcall : Event.call ∉ es) :
    ∃ n, consumed tpm s es = List.replicate n TrafficLightPhase.red ++
      (if (run tpm s es).waiter = Waiter.returned then [TrafficLightPhase.green] else []) := by
  induction es generalizing s with
  | nil => exact ⟨0, by simp [consumed, run, hw]⟩
  | cons e es ih =>
    have hes : Event.call ∉ es := fun h => hcall (List.mem_cons_of_mem _ h)
    cases e with
    | poll now now2 draw =>
      obtain ⟨n, hn⟩ := ih (step tpm s (Event.poll now now2 draw)) hw hes
      exact ⟨n, by simpa only [consumed, run_cons] using hn⟩
    | recv =>
      rcases nil_or_snoc s.light._msgLight with hq | ⟨l, b, hq⟩
      · have hs : (step tpm s Event.recv).waiter = Waiter.waiting := by
          simp [step, hw, waitForGreenStep_nil s.light hq]
        obtain ⟨n, hn⟩ := ih (step tpm s Event.recv) hs hes
        refine ⟨n, ?_⟩
        simp only [consumed, hw, hq, receive_nil, run_cons]
        simpa using hn
      · cases b with
        | red =>
          have hs : (step tpm s Event.recv).waiter = Waiter.waiting := by
            simp [step, hw, waitForGreenStep_snoc s.light l _ hq]
          obtain ⟨n, hn⟩ := ih (step tpm s Event.recv) hs hes
          refine ⟨n + 1, ?_⟩
          simp only [consumed, hw, hq, receive_snoc, run_cons, hn, List.replicate_succ]
          simp
        | green =>
          have hs : (step tpm s Event.recv).waiter = Waiter.returned := by
            simp [step, hw, waitForGreenStep_snoc s.light l _ hq]
          have hs2 : (step tpm s Event.recv).waiter ≠ Waiter.waiting := by
            rw [hs]; decide
          have h2 := consumed_not_waiting tpm (step tpm s Event.recv) es hs2 hes
          refine ⟨0, ?_⟩
          simp only [consumed, hw, hq, receive_snoc, run_cons, h2.1, h2.2, hs]
          simp
    | call => exact absurd (List.mem_cons_self _ _) hcall

/-- One pass of the `waitForGreen` loop takes at most one value, and what it
takes is the back of the buffer. -/
theorem recv_takes_back (tpm : Int) (s : System) :
    (consumed tpm s [Event.recv]).length ≤ 1 ∧
      (step tpm s Event.recv).light._msgLight ++ consumed tpm s [Event.recv]
        = s.light._msgLight := by
  cases hw : s.waiter with
  | waiting =>
    rcases nil_or_snoc s.light._msgLight with hq | ⟨l, b, hq⟩
    · simp [consumed, step, hw, hq, receive_nil, waitForGreenStep_nil s.light hq]
    · simp [consumed, step, hw, hq, receive_snoc, waitForGreenStep_snoc s.light l b hq]
  | idle => simp [consumed, step, hw]
  | returned => simp [consumed, step, hw]

theorem consumed_recv_waiting (tpm : Int) (s : System) (es : List Event)
    (hw : s.waiter = Waiter.waiting) :
    consumed tpm s (Event.recv :: es)
      = (receive s.light._msgLight).1.toList ++ consumed tpm (step tpm s Event.recv) es := by
  simp only [consumed, hw]

/-- A call in its loop whose buffer ends (towards the back) with a green
followed by `n` reds returns after exactly `n + 1` passes of its loop: it has
consumed the `n` reds and then the green, and the entries in front of the green
are still in the buffer. -/
theorem waitForGreen_drains (tpm : Int) (n : Nat) (s : System) (rest : List TrafficLightPhase)
    (hw : s.waiter = Waiter.waiting)
    (hq : s.light._msgLight
      = rest ++ TrafficLightPhase.green :: List.replicate n TrafficLightPhase.red) :
    (run tpm s (List.replicate (n + 1) Event.recv)).waiter = Waiter.returned ∧
      (run tpm s (List.replicate (n + 1) Event.recv)).light._msgLight = rest ∧
      consumed tpm s (List.replicate (n + 1) Event.recv)
        = List.replicate n TrafficLightPhase.red ++ [TrafficLightPhase.green] := by
  induction n generalizing s with
  | zero =>
    have hq1 : s.light._msgLight = rest ++ [TrafficLightPhase.green] := by simpa using hq
    simp [run, consumed, step, hw, hq1, receive_snoc, waitForGreenStep_snoc s.light rest _ hq1]
  | succ n ih =>
    have hq1 : s.light._msgLight
        = (rest ++ TrafficLightPhase.green :: List.replicate n TrafficLightPhase.red)
          ++ [TrafficLightPhase.red] := by
      rw [hq, List.replicate_succ']
      simp
    have hs1 : (step tpm s Event.recv).waiter = Waiter.waiting := by
      simp [step, hw, waitForGreenStep_snoc s.light _ _ hq1]
    have hs2 : (step tpm s Event.recv).light._msgLight
        = rest ++ TrafficLightPhase.green :: List.replicate n TrafficLightPhase.red := by
      simp [step, hw, waitForGreenStep_snoc s.light _ _ hq1]
    obtain ⟨h1, h2, h3⟩ := ih (step tpm s Event.recv) hs1 hs2
    have hrep : List.replicate (n + 1 + 1) Event.recv
        = Event.recv :: List.replicate (n + 1) Event.recv := rfl
    rw [hrep, run_cons]
    refine ⟨h1, h2, ?_⟩
    rw [consumed_recv_waiting tpm s _ hw, hq1, receive_snoc, h3]
    rfl

/-- C2: during one call of `waitForGreen` (a state inside the loop, a schedule
with no further call), each pass of the loop takes at most one value from the
back of the buffer; the values consumed are reds followed by one green exactly
when the call has returned; the call has returned if and only if a green was
consumed; once it has returned it consumes nothing more; and when the values
waiting in the buffer are `k` reds and then a green (from the back), `k + 1`
passes of the loop make the call return, having consumed exactly those, with
the entries in front of the green left in the buffer. -/
theorem waitForGreen_returns_on_first_green (tpm : Int) (s : System) (es : List Event)
    (hw : s.waiter = Waiter.waiting) (hcall : Event.call ∉ es) :
    (∀ s1 : System, (consumed tpm s1 [Event.recv]).length ≤ 1 ∧
        (step tpm s1 Event.recv).light._msgLight ++ consumed tpm s1 [Event.recv]
          = s1.light._msgLight) ∧
      (∃ n, consumed tpm s es = List.replicate n TrafficLightPhase.red ++
        (if (run tpm s es).waiter = Waiter.returned then [TrafficLightPhase.green] else [])) ∧
      ((run tpm s es).waiter = Waiter.returned ↔ TrafficLightPhase.green ∈ consumed tpm s es) ∧
      ((run tpm s es).waiter = Waiter.returned →
        ∀ es2, Event.call ∉ es2 → consumed tpm (run tpm s es) es2 = []) ∧
      (∀ (rest : List TrafficLightPhase) (k : Nat),
        s.light._msgLight
          = rest ++ TrafficLightPhase.green :: List.replicate k TrafficLightPhase.red →
        (run tpm s (List.replicate (k + 1) Event.recv)).waiter = Waiter.returned ∧
        (run tpm s (List.replicate (k + 1) Event.recv)).light._msgLight = rest ∧
        consumed tpm s (List.replicate (k + 1) Event.recv)
          = List.replicate k TrafficLightPhase.red ++ [TrafficLightPhase.green]) := by
  obtain ⟨n, hn⟩ := consumed_waiting tpm s es hw hcall
  refine ⟨recv_takes_back tpm, ⟨n, hn⟩, ?_, ?_,
    fun rest k hq => waitForGreen_drains tpm k s rest hw hq⟩
  · rw [hn]
    by_cases hr : (run tpm s es).waiter = Waiter.returned
    · simp [hr]
    · simp [hr, List.mem_replicate]
  · intro hr es2 hes2
    have hr2 : (run tpm s es).waiter ≠ Waiter.waiting := by
      rw [hr]; decide
    exact (consumed_not_waiting tpm (run tpm s es) es2 hr2 hes2).1

/-- Instance of C2: a call in its loop with buffer `[green, red, red]`, three
passes of the loop and, between them, one pass of the toggle loop that sends
nothing: the call consumes the two reds from the back, then the green, and has
returned. -/
theorem waitForGreen_returns_on_first_green_witness :
    consumed 1000000
        { light := { _currentPhase := TrafficLightPhase.red,
                     _msgLight := [TrafficLightPhase.green, TrafficLightPhase.red,
                                   TrafficLightPhase.red] },
          loop := { start := 0, rd_time := 4000 }, waiter := Waiter.waiting }
        [Event.recv, Event.poll 1000000 1000000 4000, Event.recv, Event.recv]
      = [TrafficLightPhase.red, TrafficLightPhase.red, TrafficLightPhase.green] ∧
    ((run 1000000
        { light := { _currentPhase := TrafficLightPhase.red,
                     _msgLight := [TrafficLightPhase.green, TrafficLightPhase.red,
                                   TrafficLightPhase.red] },
          loop := { start := 0, rd_time := 4000 }, waiter := Waiter.waiting }
        [Event.recv, Event.poll 1000000 1000000 4000, Event.recv, Event.recv]).waiter
        = Waiter.returned ↔
      TrafficLightPhase.green ∈ consumed 1000000
        { light := { _currentPhase := TrafficLightPhase.red,
                     _msgLight := [TrafficLightPhase.green, TrafficLightPhase.red,
                                   TrafficLightPhase.red] },
          loop := { start := 0, rd_time := 4000 }, waiter := Waiter.waiting }
        [Event.recv, Event.poll 1000000 1000000 4000, Event.recv, Event.recv]) :=
  ⟨by decide,
   (waitForGreen_returns_on_first_green 1000000
      { light := { _currentPhase := TrafficLightPhase.red,
                   _msgLight := [TrafficLightPhase.green, TrafficLightPhase.red,
                                 TrafficLightPhase.red] },
        loop := { start := 0, rd_time := 4000 }, waiter := Waiter.waiting }
      [Event.recv, Event.poll 1000000 1000000 4000, Event.recv, Event.recv]
      rfl (by decide)).2.2.1⟩

/-- Inside a call of `waitForGreen`, with no green in the buffer, a step that is
not a toggle to green leaves the call inside its loop and the buffer without
green. -/
theorem step_keeps_waiting (tpm : Int) (s : System) (e : Event)
    (hw : s.waiter = Waiter.waiting) (hng : TrafficLightPhase.green ∉ s.light._msgLight)
    (ht : togglesToGreen tpm s e = false) :
    (step tpm s e).waiter = Waiter.waiting ∧
      TrafficLightPhase.green ∉ (step tpm s e).light._msgLight := by
  cases e with
  | poll now now2 draw =>
    refine ⟨hw, ?_⟩
    cases h : thresholdReached tpm s.loop now with
    | true =>
      have hp : s.light._currentPhase ≠ TrafficLightPhase.red := by
        simpa [togglesToGreen, toggles, h] using ht
      simp only [step, cycle_fires tpm s.light s.loop now now2 draw h, if_neg hp]
      simpa using hng
    | false =>
      simp only [step, cycle_idle tpm s.light s.loop now now2 draw h]
      exact hng
  | recv =>
    rcases nil_or_snoc s.light._msgLight with hq | ⟨l, b, hq⟩
    · simp only [step, hw, waitForGreenStep_nil s.light hq]
      exact ⟨by simp, hng⟩
    · have hb : b ≠ TrafficLightPhase.green := by
        intro hb
        apply hng
        rw [hq, hb]
        simp
      have hl : TrafficLightPhase.green ∉ l := by
        intro hl
        apply hng
        rw [hq]
        exact List.mem_append_left _ hl
      simp only [step, hw, waitForGreenStep_snoc s.light l b hq]
      exact ⟨by simp [hb], hl⟩
  | call =>
    have hs : step tpm s Event.call = s := by simp only [step, hw]
    rw [hs]
    exact ⟨hw, hng⟩

/-- A call of `waitForGreen` that starts with no green in the buffer returns
only after a toggle to green made during the call. -/
theorem return_needs_green_toggle (tpm : Int) (s : System) (post : List Event)
    (hw : s.waiter = Waiter.waiting) (hng : TrafficLightPhase.green ∉ s.light._msgLight)
    (hret : (run tpm s post).waiter = Waiter.returned) :
    GreenToggleBeforeReturn tpm s post := by
  induction post generalizing s with
  | nil =>
    rw [run, List.foldl_nil, hw] at hret
    exact absurd hret (by decide)
  | cons e es ih =>
    cases ht : togglesToGreen tpm s e with
    | true => exact ⟨[], e, es, rfl, hw, ht⟩
    | false =>
      obtain ⟨hw1, hng1⟩ := step_keeps_waiting tpm s e hw hng ht
      obtain ⟨p1, e1, p2, hsplit, hw2, ht2⟩ := ih (step tpm s e) hw1 hng1 hret
      exact ⟨e :: p1, e1, p2, by rw [hsplit]; rfl, hw2, ht2⟩

theorem step_call_waiting (tpm : Int) (s : System) :
    (step tpm s Event.call).waiter = Waiter.waiting := by
  cases hw : s.waiter <;> simp only [step, hw]

/-- C3 as stated fails: from a fresh light the toggle loop toggles twice
(green, then red), leaving `[green, red]` in the buffer with the phase red;
`waitForGreen` is then called and two passes of its loop consume the red and
the old green, so the call returns although no toggle at all happens after
the call began. -/
theorem waitForGreen_returns_on_stale_green :
    (run 1000000 (System.fresh 0 4000)
        [Event.poll 4000000000 4000000001 4000, Event.poll 8000000001 8000000002 4000]
      ).light._currentPhase = TrafficLightPhase.red ∧
    (run 1000000 (System.fresh 0 4000)
        [Event.poll 4000000000 4000000001 4000, Event.poll 8000000001 8000000002 4000]
      ).light._msgLight = [TrafficLightPhase.green, TrafficLightPhase.red] ∧
    (run 1000000
        (step 1000000
          (run 1000000 (System.fresh 0 4000)
            [Event.poll 4000000000 4000000001 4000, Event.poll 8000000001 8000000002 4000])
          Event.call)
        [Event.recv, Event.recv]).waiter = Waiter.returned ∧
    ¬ GreenToggleBeforeReturn 1000000
        (step 1000000
          (run 1000000 (System.fresh 0 4000)
            [Event.poll 4000000000 4000000001 4000, Event.poll 8000000001 8000000002 4000])
          Event.call)
        [Event.recv, Event.recv] := by
  refine ⟨by decide, by decide, by decide, ?_⟩
  rintro ⟨p1, e, p2, hsplit, -, ht⟩
  have he : e ∈ [Event.recv, Event.recv] := by
    rw [hsplit]
    simp
  have he2 : e = Event.recv := by simpa using he
  subst he2
  simp [togglesToGreen, toggles] at ht

/-- C3, amended: in every state reached from a fresh light by any schedule, if
the phase is red and the buffer holds no green when `waitForGreen` is called,
and the call has returned after the schedule `post`, then somewhere in `post` the
toggle loop switched the light from red to green while the call was still
inside its loop. -/
theorem waitForGreen_waits_for_new_green (tpm now0 draw0 : Int) (pre post : List Event)
    (_hred : (run tpm (System.fresh now0 draw0) pre).light._currentPhase
      = TrafficLightPhase.red)
    (hng : TrafficLightPhase.green ∉ (run tpm (System.fresh now0 draw0) pre).light._msgLight)
    (hret : (run tpm (step tpm (run tpm (System.fresh now0 draw0) pre) Event.call) post).waiter
      = Waiter.returned) :
    GreenToggleBeforeReturn tpm (step tpm (run tpm (System.fresh now0 draw0) pre) Event.call)
      post := by
  apply return_needs_green_toggle tpm _ post (step_call_waiting tpm _) _ hret
  rw [step_call_light]
  exact hng

/-- Instance of the amended C3: the light toggles to green, a first call
consumes that green, the light toggles back to red; the buffer is `[red]` and
the phase red when the second call starts; it consumes the red, the light
toggles to green, and the call returns on the new green. -/
theorem waitForGreen_waits_for_new_green_witness :
    (run 1000000 (System.fresh 0 4000)
        [Event.poll 4000000000 4000000001 4000, Event.call, Event.recv,
         Event.poll 8000000001 8000000002 4000]).light
      = { _currentPhase := TrafficLightPhase.red, _msgLight := [TrafficLightPhase.red] } ∧
    (run 1000000
        (step 1000000
          (run 1000000 (System.fresh 0 4000)
            [Event.poll 4000000000 4000000001 4000, Event.call, Event.recv,
             Event.poll 8000000001 8000000002 4000])
          Event.call)
        [Event.recv, Event.poll 12000000002 12000000003 4000, Event.recv]).waiter
      = Waiter.returned ∧
    GreenToggleBeforeReturn 1000000
      (step 1000000
        (run 1000000 (System.fresh 0 4000)
          [Event.poll 4000000000 4000000001 4000, Event.call, Event.recv,
           Event.poll 8000000001 8000000002 4000])
        Event.call)
      [Event.recv, Event.poll 12000000002 12000000003 4000, Event.recv] :=
  ⟨by decide, by decide,
   waitForGreen_waits_for_new_green 1000000 0 4000
    [Event.poll 4000000000 4000000001 4000, Event.call, Event.recv,
     Event.poll 8000000001 8000000002 4000]
    [Event.recv, Event.poll 12000000002 12000000003 4000, Event.recv]
    (by decide) (by decide) (by decide)⟩

/-! ## Dwell times -/

theorem step_recv_loop (tpm : Int) (s : System) : (step tpm s Event.recv).loop = s.loop := by
  cases hw : s.waiter <;> simp only [step, hw]

theorem step_call_loop (tpm : Int) (s : System) : (step tpm s Event.call).loop = s.loop := by
  cases hw : s.waiter <;> simp only [step, hw]

/-- The lower dwell-time bound from any state in which the baseline is not
after the latest clock reading `r` and the threshold is at least 4000. -/
theorem dwell_lower_from (tpm gap : Int) (htpm : 0 < tpm)
    (s : System) (r p : Int) (es : List Event)
    (hstart : s.loop.start ≤ r) (hrd : 4000 ≤ s.loop.rd_time)
    (hdraws : DrawsInRange es) (hclock : ClockSteady gap r p es) :
    ∀ t ∈ dwellTimes tpm s es, 4000 * tpm ≤ t := by
  induction es generalizing s r p with
  | nil =>
    intro t ht
    simp [dwellTimes] at ht
  | cons e es ih =>
    cases e with
    | poll now now2 draw =>
      obtain ⟨hr, -, hnow2, hrest⟩ := hclock
      obtain ⟨hdraw, hdraws2⟩ := hdraws
      have hle : s.loop.start ≤ now := le_trans hstart hr
      cases h : thresholdReached tpm s.loop now with
      | true =>
        have hge : s.loop.rd_time ≤ elapsedTime tpm s.loop.start now := by
          simpa only [thresholdReached, decide_eq_true_eq] using h
        have hlow : 4000 * tpm ≤ now - s.loop.start :=
          elapsedTime_lower tpm 4000 s.loop.start now htpm (by decide) hle (le_trans hrd hge)
        have ih1 := ih (step tpm s (Event.poll now now2 draw)) now2 now
        simp only [step, cycle_fires tpm s.light s.loop now now2 draw h] at ih1
        have ih2 := ih1 (le_refl _) hdraw.1 hdraws2 hrest
        intro t ht
        simp only [dwellTimes, toggles, h, if_true, step,
          cycle_fires tpm s.light s.loop now now2 draw h, List.singleton_append,
          List.mem_cons] at ht
        rcases ht with rfl | ht
        · exact hlow
        · exact ih2 t ht
      | false =>
        have ih1 := ih (step tpm s (Event.poll now now2 draw)) now2 now
        simp only [step, cycle_idle tpm s.light s.loop now now2 draw h] at ih1
        have ih2 := ih1 (le_trans hle hnow2) hrd hdraws2 hrest
        intro t ht
        simp only [dwellTimes, toggles, h, step,
          cycle_idle tpm s.light s.loop now now2 draw h, Bool.false_eq_true, if_false,
          List.nil_append] at ht
        exact ih2 t ht
    | recv =>
      have ih1 := ih (step tpm s Event.recv) r p
      rw [step_recv_loop] at ih1
      have ih2 := ih1 hstart hrd hdraws hclock
      intro t ht
      exact ih2 t (by simpa only [dwellTimes] using ht)
    | call =>
      have ih1 := ih (step tpm s Event.call) r p
      rw [step_call_loop] at ih1
      have ih2 := ih1 hstart hrd hdraws hclock
      intro t ht
      exact ih2 t (by simpa only [dwellTimes] using ht)

/-- The upper dwell-time bound from any state in which the baseline is not after
the latest clock reading `r`, the latest reading `p` used for `elapsedTime` is
less than 6000 ms after the baseline, and the threshold is at most 6000. -/
theorem dwell_upper_from (tpm d : Int) (htpm : 0 < tpm) (hfit : 6000 + d ≤ 2 ^ 31)
    (hticks : (6000 + d) * tpm ≤ 2 ^ 63)
    (s : System) (r p : Int) (es : List Event)
    (hstart : s.loop.start ≤ r) (hpr : p ≤ r) (hp : p - s.loop.start < 6000 * tpm)
    (hrd : s.loop.rd_time ≤ 6000)
    (hdraws : DrawsInRange es) (hclock : ClockSteady (d * tpm) r p es) :
    ∀ t ∈ dwellTimes tpm s es, t ≤ (6000 + d) * tpm := by
  induction es generalizing s r p with
  | nil =>
    intro t ht
    simp [dwellTimes] at ht
  | cons e es ih =>
    cases e with
    | poll now now2 draw =>
      obtain ⟨hr, hgap, hnow2, hrest⟩ := hclock
      obtain ⟨hdraw, hdraws2⟩ := hdraws
      have hmul : (6000 + d) * tpm = 6000 * tpm + d * tpm := by ring
      have hlt : now - s.loop.start < (6000 + d) * tpm := by
        rw [hmul]
        omega
      have hle : s.loop.start ≤ now := le_trans hstart hr
      cases h : thresholdReached tpm s.loop now with
      | true =>
        have ih1 := ih (step tpm s (Event.poll now now2 draw)) now2 now
        simp only [step, cycle_fires tpm s.light s.loop now now2 draw h] at ih1
        have ih2 := ih1 (le_refl _) hnow2 (by omega) hdraw.2 hdraws2 hrest
        intro t ht
        simp only [dwellTimes, toggles, h, if_true, step,
          cycle_fires tpm s.light s.loop now now2 draw h, List.singleton_append,
          List.mem_cons] at ht
        rcases ht with rfl | ht
        · exact le_of_lt hlt
        · exact ih2 t ht
      | false =>
        have hel : elapsedTime tpm s.loop.start now = (now - s.loop.start) / tpm :=
          elapsedTime_exact tpm (6000 + d) s.loop.start now htpm hfit hticks hle hlt
        have hlt2 : (now - s.loop.start) / tpm < s.loop.rd_time := by
          have h2 := h
          simp only [thresholdReached, decide_eq_false_iff_not, not_le] at h2
          rw [hel] at h2
          exact h2
        have h6 : (now - s.loop.start) / tpm < 6000 := lt_of_lt_of_le hlt2 hrd
        have hup : now - s.loop.start < 6000 * tpm := Int.lt_mul_of_ediv_lt htpm h6
        have ih1 := ih (step tpm s (Event.poll now now2 draw)) now2 now
        simp only [step, cycle_idle tpm s.light s.loop now now2 draw h] at ih1
        have ih2 := ih1 (le_trans hle hnow2) hnow2 hup hrd hdraws2 hrest
        intro t ht
        simp only [dwellTimes, toggles, h, step,
          cycle_idle tpm s.light s.loop now now2 draw h, Bool.false_eq_true, if_false,
          List.nil_append] at ht
        exact ih2 t ht
    | recv =>
      have ih1 := ih (step tpm s Event.recv) r p
      rw [step_recv_loop] at ih1
      have ih2 := ih1 hstart hpr hp hrd hdraws hclock
      intro t ht
      exact ih2 t (by simpa only [dwellTimes] using ht)
    | call =>
      have ih1 := ih (step tpm s Event.call) r p
      rw [step_call_loop] at ih1
      have ih2 := ih1 hstart hpr hp hrd hdraws hclock
      intro t ht
      exact ih2 t (by simpa only [dwellTimes] using ht)

/-- C7 as stated fails for poll gaps of `2^31` ms: with a nanosecond clock,
first threshold 4000 and polls at `2^31` ms, `2^32` ms and `2^32 + 4000` ms
after the baseline (each at most `d = 2^31` ms after the previous reading, all
draws 4000), the elapsed milliseconds stored in the `int` are `-2^31`, `0` and
`4000`, so the only toggle comes `2^32 + 4000` ms after the baseline, more than
`6000 + d` ms. -/
theorem dwell_time_exceeds_bound_after_wrap :
    ((4000 : Int) ≤ 4000 ∧ (4000 : Int) ≤ 6000) ∧
    DrawsInRange
      [Event.poll 2147483648000000 2147483648000000 4000,
       Event.poll 4294967296000000 4294967296000000 4000,
       Event.poll 4294971296000000 4294971296000000 4000] ∧
    ClockSteady (2147483648 * 1000000) 0 0
      [Event.poll 2147483648000000 2147483648000000 4000,
       Event.poll 4294967296000000 4294967296000000 4000,
       Event.poll 4294971296000000 4294971296000000 4000] ∧
    dwellTimes 1000000 (System.fresh 0 4000)
      [Event.poll 2147483648000000 2147483648000000 4000,
       Event.poll 4294967296000000 4294967296000000 4000,
       Event.poll 4294971296000000 4294971296000000 4000] = [4294971296000000] ∧
    ¬ ((4294971296000000 : Int) ≤ (6000 + 2147483648) * 1000000) := by
  decide

/-- The upper bound already fails when `6000 + d` is `2^31 + 1`: nanosecond
clock, `d = 2^31 - 5999` ms, first threshold 6000 and polls 5999 ms, `2^31` ms,
`2^32 - 5999` ms and `2^32 + 6000` ms after the baseline.  The `int` holds 5999,
`-2^31`, `-5999` and 6000, so the only toggle comes `2^32 + 6000` ms after the
baseline. -/
theorem dwell_upper_bound_sharp :
    (6000 + 2147477649 : Int) = 2 ^ 31 + 1 ∧
    DrawsInRange
      [Event.poll 5999000000 5999000000 6000,
       Event.poll 2147483648000000 2147483648000000 6000,
       Event.poll 4294961297000000 4294961297000000 6000,
       Event.poll 4294973296000000 4294973296000000 6000] ∧
    ClockSteady (2147477649 * 1000000) 0 0
      [Event.poll 5999000000 5999000000 6000,
       Event.poll 2147483648000000 2147483648000000 6000,
       Event.poll 4294961297000000 4294961297000000 6000,
       Event.poll 4294973296000000 4294973296000000 6000] ∧
    dwellTimes 1000000 (System.fresh 0 6000)
      [Event.poll 5999000000 5999000000 6000,
       Event.poll 2147483648000000 2147483648000000 6000,
       Event.poll 4294961297000000 4294961297000000 6000,
       Event.poll 4294973296000000 4294973296000000 6000] = [4294973296000000] ∧
    ¬ ((4294973296000000 : Int) ≤ (6000 + 2147477649) * 1000000) := by
  decide

/-- The upper bound also depends on the 64-bit count of ticks: on a clock with
`2^50` ticks per millisecond, 8192 ms of ticks are `2^63`.  With `d = 2193` ms
(so `6000 + d ≤ 2^31` but `(6000 + d) * 2^50 > 2^63`), first threshold 6000 and
polls at most 2193 ms apart, the tick difference wraps at 8192 ms and the only
toggle comes 22384 ms after the baseline. -/
theorem dwell_upper_bound_needs_tick_count :
    (6000 + 2193 : Int) ≤ 2 ^ 31 ∧
    ¬ ((6000 + 2193 : Int) * 2 ^ 50 ≤ 2 ^ 63) ∧
    DrawsInRange
      [Event.poll (2193 * 2 ^ 50) (2193 * 2 ^ 50) 6000,
       Event.poll (4386 * 2 ^ 50) (4386 * 2 ^ 50) 6000,
       Event.poll (5999 * 2 ^ 50) (5999 * 2 ^ 50) 6000,
       Event.poll (8192 * 2 ^ 50) (8192 * 2 ^ 50) 6000,
       Event.poll (10385 * 2 ^ 50) (10385 * 2 ^ 50) 6000,
       Event.poll (12578 * 2 ^ 50) (12578 * 2 ^ 50) 6000,
       Event.poll (14771 * 2 ^ 50) (14771 * 2 ^ 50) 6000,
       Event.poll (16964 * 2 ^ 50) (16964 * 2 ^ 50) 6000,
       Event.poll (19157 * 2 ^ 50) (19157 * 2 ^ 50) 6000,
       Event.poll (21350 * 2 ^ 50) (21350 * 2 ^ 50) 6000,
       Event.poll (22384 * 2 ^ 50) (22384 * 2 ^ 50) 6000] ∧
    ClockSteady (2193 * 2 ^ 50) 0 0
      [Event.poll (2193 * 2 ^ 50) (2193 * 2 ^ 50) 6000,
       Event.poll (4386 * 2 ^ 50) (4386 * 2 ^ 50) 6000,
       Event.poll (5999 * 2 ^ 50) (5999 * 2 ^ 50) 6000,
       Event.poll (8192 * 2 ^ 50) (8192 * 2 ^ 50) 6000,
       Event.poll (10385 * 2 ^ 50) (10385 * 2 ^ 50) 6000,
       Event.poll (12578 * 2 ^ 50) (12578 * 2 ^ 50) 6000,
       Event.poll (14771 * 2 ^ 50) (14771 * 2 ^ 50) 6000,
       Event.poll (16964 * 2 ^ 50) (16964 * 2 ^ 50) 6000,
       Event.poll (19157 * 2 ^ 50) (19157 * 2 ^ 50) 6000,
       Event.poll (21350 * 2 ^ 50) (21350 * 2 ^ 50) 6000,
       Event.poll (22384 * 2 ^ 50) (22384 * 2 ^ 50) 6000] ∧
    dwellTimes (2 ^ 50) (System.fresh 0 6000)
      [Event.poll (2193 * 2 ^ 50) (2193 * 2 ^ 50) 6000,
       Event.poll (4386 * 2 ^ 50) (4386 * 2 ^ 50) 6000,
       Event.poll (5999 * 2 ^ 50) (5999 * 2 ^ 50) 6000,
       Event.poll (8192 * 2 ^ 50) (8192 * 2 ^ 50) 6000,
       Event.poll (10385 * 2 ^ 50) (10385 * 2 ^ 50) 6000,
       Event.poll (12578 * 2 ^ 50) (12578 * 2 ^ 50) 6000,
       Event.poll (14771 * 2 ^ 50) (14771 * 2 ^ 50) 6000,
       Event.poll (16964 * 2 ^ 50) (16964 * 2 ^ 50) 6000,
       Event.poll (19157 * 2 ^ 50) (19157 * 2 ^ 50) 6000,
       Event.poll (21350 * 2 ^ 50) (21350 * 2 ^ 50) 6000,
       Event.poll (22384 * 2 ^ 50) (22384 * 2 ^ 50) 6000] = [22384 * 2 ^ 50] ∧
    ¬ ((22384 : Int) * 2 ^ 50 ≤ (6000 + 2193) * 2 ^ 50) := by
  decide

/-- C7, amended: let every threshold draw be an integer in `[4000, 6000]`, the
clock readings never go back, and each reading used for `elapsedTime` come at
most `d` ms after the previous one (the first at most `d` ms after the reading
taken before the loop).  Then every dwell time `t`, in clock ticks from the
baseline to the pass that toggles, is at least 4000 ms; and it is at most
`6000 + d` ms provided `6000 + d` milliseconds fit the two counters of the
code: `6000 + d ≤ 2^31` for the `int` of milliseconds and
`(6000 + d) * tpm ≤ 2^63` for the 64-bit count of ticks. -/
theorem dwell_time_bounds (tpm d : Int) (htpm : 0 < tpm)
    (now0 draw0 : Int) (es : List Event)
    (hdraw0 : 4000 ≤ draw0 ∧ draw0 ≤ 6000) (hdraws : DrawsInRange es)
    (hclock : ClockSteady (d * tpm) now0 now0 es) :
    (∀ t ∈ dwellTimes tpm (System.fresh now0 draw0) es, 4000 * tpm ≤ t) ∧
      (6000 + d ≤ 2 ^ 31 → (6000 + d) * tpm ≤ 2 ^ 63 →
        ∀ t ∈ dwellTimes tpm (System.fresh now0 draw0) es, t ≤ (6000 + d) * tpm) := by
  refine ⟨?_, fun hfit hticks => ?_⟩
  · exact dwell_lower_from tpm (d * tpm) htpm (System.fresh now0 draw0) now0 now0 es
      (le_refl _) hdraw0.1 hdraws hclock
  · apply dwell_upper_from tpm d htpm hfit hticks (System.fresh now0 draw0) now0 now0 es
      (le_refl _) (le_refl _) _ hdraw0.2 hdraws hclock
    show now0 - now0 < 6000 * tpm
    omega

/-- Instance of the amended C7: nanosecond clock, `d = 5000`; polls at 3000 ms
(no toggle), 4500 ms (toggle, baseline reset 100 ns later, new threshold 5000),
9000 ms (no toggle) and 5100 ms after the new baseline (toggle). -/
theorem dwell_time_bounds_witness :
    DrawsInRange
      [Event.poll 3000000000 3000000000 4000, Event.poll 4500000000 4500000100 5000,
       Event.poll 9000000000 9000000000 4000, Event.poll 9600000100 9600000200 4000] ∧
    ClockSteady (5000 * 1000000) 0 0
      [Event.poll 3000000000 3000000000 4000, Event.poll 4500000000 4500000100 5000,
       Event.poll 9000000000 9000000000 4000, Event.poll 9600000100 9600000200 4000] ∧
    dwellTimes 1000000 (System.fresh 0 4000)
      [Event.poll 3000000000 3000000000 4000, Event.poll 4500000000 4500000100 5000,
       Event.poll 9000000000 9000000000 4000, Event.poll 9600000100 9600000200 4000]
      = [4500000000, 5100000000] ∧
    4000 * 1000000 ≤ (5100000000 : Int) ∧
    (5100000000 : Int) ≤ (6000 + 5000) * 1000000 :=
  ⟨by decide, by decide, by decide,
   (dwell_time_bounds 1000000 5000 (by decide) 0 4000
      [Event.poll 3000000000 3000000000 4000, Event.poll 4500000000 4500000100 5000,
       Event.poll 9000000000 9000000000 4000, Event.poll 9600000100 9600000200 4000]
      (by decide) (by decide) (by decide)).1 5100000000 (by decide),
   (dwell_time_bounds 1000000 5000 (by decide) 0 4000
      [Event.poll 3000000000 3000000000 4000, Event.poll 4500000000 4500000100 5000,
       Event.poll 9000000000 9000000000 4000, Event.poll 9600000100 9600000200 4000]
      (by decide) (by decide) (by decide)).2 (by decide) (by decide) 5100000000 (by decide)⟩

end TrafficSim
